import Mathlib

/-!
Verification development for the `shoppin` e-commerce crawler repository.

The repository contains two generations of the crawler:
* `src/index.js` (and the earlier variant `src/unnamed/part_000`): a worker-thread
  orchestrator `crawlDomains` over a BFS loop `crawlDomain` with an explicit
  frontier queue, a visited set and a depth ceiling;
* `src/server.js`: the `EcommerceCrawler` class, which crawls each domain's base
  URL, classifies the first few extracted links by URL pattern and domain scope,
  and verifies product candidates against page-content indicators, recording
  verification failures and navigation errors in a per-domain failed set.

External collaborators (puppeteer page rendering, cheerio link extraction,
Node's `url` parsing) are modelled as oracle functions passed as parameters:
`fetch` returns the ordered href list extracted from a successfully rendered
page (or an error/`none` when navigation throws or all retries fail), `render`
returns the DOM indicator booleans read by `page.evaluate` (or `none` when
navigation inside the verifier throws), and `parse` returns the hostname that
`urlParser.parse(url).hostname` would yield (`none` when it is `null` or the
access throws).  JavaScript `Set` values are modelled as duplicate-free lists
in insertion order, `Map` values keyed per domain as plain fields.

String primitives are re-implemented over `List Char` so that all definitions
evaluate inside the kernel; they model the JavaScript string operations used
by the source (`includes`, `startsWith`, `endsWith`, `toLowerCase`).
-/

/-- Model of JavaScript `String.prototype.startsWith` on character lists:
`charsHasPrefix s p` is true iff `p` is a prefix of `s`. -/
def charsHasPrefix : List Char → List Char → Bool
  | _, [] => true
  | [], _ :: _ => false
  | c :: cs, p :: ps => c == p && charsHasPrefix cs ps

/-- Model of JavaScript `String.prototype.includes` on character lists:
true iff the pattern occurs contiguously in the string. -/
def charsContains : List Char → List Char → Bool
  | [], pat => pat.isEmpty
  | c :: cs, pat => charsHasPrefix (c :: cs) pat || charsContains cs pat

/-- `s.startsWith(pre)` for strings. -/
def strStartsWith (s pre : String) : Bool := charsHasPrefix s.toList pre.toList

/-- `s.endsWith(suf)` for strings. -/
def strEndsWith (s suf : String) : Bool :=
  charsHasPrefix s.toList.reverse suf.toList.reverse

/-- `s.includes(pat)` for strings. -/
def containsSubstr (s pat : String) : Bool := charsContains s.toList pat.toList

/-- ASCII lower-casing of one character, as JavaScript `toLowerCase` acts on
the ASCII range used by the URL patterns. -/
def chLower (c : Char) : Char :=
  if 'A' ≤ c && c ≤ 'Z' then Char.ofNat (c.toNat + 32) else c

/-- `s.toLowerCase()` for the ASCII strings handled by the crawler. -/
def strToLower (s : String) : String := (s.toList.map chLower).asString

/-- JavaScript `Set.prototype.add`: appends an element unless already present,
preserving insertion order. -/
def insertSet (s : List String) (x : String) : List String :=
  if s.contains x then s else s ++ [x]

/-- Adds every element of `l` to the set `s` (a sequence of `Set.add` calls). -/
def addAll (s : List String) (l : List String) : List String :=
  l.foldl insertSet s

namespace Server

/-- `PRODUCT_URL_PATTERNS` from src/server.js lines 8-26. -/
def PRODUCT_URL_PATTERNS : List String :=
  ["/product/", "/item/", "/p/", "/products/", "/pd/", "-p-", "/dp/",
   "/catalog/", "/shop/", "/detail/", "/goods/", "/listing/", "/itm/",
   "/ip/", "/pl/", "/gp/", "/buy/"]

/-- `EcommerceCrawler.isProductUrl` (src/server.js lines 270-272):
`PRODUCT_URL_PATTERNS.some(pattern => url.includes(pattern))`. -/
def isProductUrl (url : String) : Bool :=
  PRODUCT_URL_PATTERNS.any (fun pattern => containsSubstr url pattern)

/-- `hostname.replace(/^www\./, '')` (src/server.js line 277): strips one
leading `www.` if present. -/
def stripWww (h : String) : String :=
  if strStartsWith h "www." then (h.toList.drop 4).asString else h

/-- `EcommerceCrawler.isSameDomain` (src/server.js lines 274-282).  `parse`
models `urlParser.parse(url).hostname`; `none` covers both a `null` hostname
(whereupon `.replace` throws a `TypeError`) and a throwing parse — in either
case the surrounding `try`/`catch` returns `false`. -/
def isSameDomain (parse : String → Option String) (url domain : String) : Bool :=
  match parse url with
  | none => false
  | some h =>
    let hostname := stripWww h
    hostname == domain || strEndsWith hostname ("." ++ domain)

/-- The six DOM indicator booleans computed by `page.evaluate` inside
`EcommerceCrawler.isValidProductPage` (src/server.js lines 243-257), in the
source's `selectors` order. -/
structure PageIndicators where
  price : Bool
  addToCart : Bool
  productTitle : Bool
  productImage : Bool
  buyButton : Bool
  metadata : Bool
deriving DecidableEq

/-- The verification formula returned at src/server.js lines 259-263:
`price && (addToCart || buyButton) && (productTitle || productImage || metadata)`. -/
def productSignals (i : PageIndicators) : Bool :=
  i.price && (i.addToCart || i.buyButton) &&
    (i.productTitle || i.productImage || i.metadata)

/-- `EcommerceCrawler.isValidProductPage` (src/server.js lines 239-268).
`render` models navigating to `url` and evaluating the indicator selectors;
`none` models any thrown error, which the `catch` converts to `false`. -/
def isValidProductPage (render : String → Option PageIndicators)
    (url : String) : Bool :=
  match render url with
  | none => false
  | some i => productSignals i

/-- Result of rendering a page in `processUrl`: either the ordered list of
anchor `href` values extracted from the settled page (src/server.js lines
167-173), or an error thrown anywhere between `page.goto` and extraction. -/
inductive PageResult where
  | ok (links : List String)
  | err
deriving DecidableEq

/-- The per-domain crawl state touched by `processUrl`: the domain's
`results.get(domain)` set (`confirmed`), its `failedUrls.get(domain)` set
(`failed`), and the crawler's `visitedUrls` set. -/
structure SState where
  confirmed : List String
  failed : List String
  visited : List String
deriving DecidableEq

/-- Link selection in `processUrl` (src/server.js lines 170-177): keep hrefs
starting with `http`, then take at most `maxLinksPerPage = 5`. -/
def selectedLinks (links : List String) : List String :=
  (links.filter (fun h => strStartsWith h "http")).take 5

/-- One iteration of the link loop at src/server.js lines 179-187. -/
def linkStep (parse : String → Option String)
    (render : String → Option PageIndicators) (domain : String)
    (st : SState) (link : String) : SState :=
  if isProductUrl link && isSameDomain parse link domain then
    if isValidProductPage render link then
      { st with confirmed := insertSet st.confirmed link }
    else
      { st with failed := insertSet st.failed link }
  else st

/-- `EcommerceCrawler.processUrl` (src/server.js lines 145-193).  The body's
`try` covers navigation, settling and extraction (modelled by `fetch`); any
throw lands in the `catch`, which records `url` in the domain's failed set.
A successfully rendered page has its selected links classified by
`linkStep`; `processUrl` never enqueues or recurses into any link. -/
def processUrl (parse : String → Option String)
    (render : String → Option PageIndicators)
    (fetch : String → PageResult) (domain url : String) (st : SState) : SState :=
  if st.visited.contains url then st
  else
    let st1 : SState := { st with visited := st.visited ++ [url] }
    match fetch url with
    | PageResult.err => { st1 with failed := insertSet st1.failed url }
    | PageResult.ok links =>
      (selectedLinks links).foldl (linkStep parse render domain) st1

/-- Bool predicate: `link` takes the confirmed branch of the link loop. -/
def classifiesConfirmed (parse : String → Option String)
    (render : String → Option PageIndicators) (domain link : String) : Bool :=
  isProductUrl link && isSameDomain parse link domain &&
    isValidProductPage render link

/-- Bool predicate: `link` takes the failed branch of the link loop. -/
def classifiesFailed (parse : String → Option String)
    (render : String → Option PageIndicators) (domain link : String) : Bool :=
  isProductUrl link && isSameDomain parse link domain &&
    !isValidProductPage render link

end Server

namespace IndexCrawler

/-- `productPatterns` of `isValidProductURL` (src/index.js line 47): the three
case-insensitive regexes `/\/product\//i`, `/\/item\//i`, `/\/p\//i`. -/
def productPatterns : List String := ["/product/", "/item/", "/p/"]

/-- `isValidProductURL` (src/index.js lines 46-49): some pattern matches the
raw href case-insensitively, and the href contains the base domain string. -/
def isValidProductURL (href baseDomain : String) : Bool :=
  productPatterns.any (fun pattern => containsSubstr (strToLower href) pattern)
    && containsSubstr href baseDomain

/-- `extractProductURLs` (src/index.js lines 30-43): collects into a `Set` the
absolute form of every non-empty href passing `isValidProductURL`.  `resolve`
models `new URL(href, baseDomain).toString()`. -/
def extractProductURLs (resolve : String → String → String)
    (baseDomain : String) (hrefs : List String) : List String :=
  hrefs.foldl
    (fun links href =>
      if href != "" && isValidProductURL href baseDomain then
        insertSet links (resolve href baseDomain)
      else links) []

/-- A frontier entry `{ url, depth }` (src/index.js line 54). -/
structure Entry where
  url : String
  depth : Nat
deriving DecidableEq

/-- State of the `crawlDomain` loop (src/index.js lines 52-83): the frontier
`queue`, the `visited` set and the `productURLs` set, plus two ghost logs that
record, without influencing execution, every entry removed by `queue.shift()`
(`dequeuedLog`) and every entry that passed the guard on line 60 and was
actually processed (`processedLog`). -/
structure CrawlState where
  queue : List Entry
  visited : List String
  productURLs : List String
  dequeuedLog : List Entry
  processedLog : List Entry
deriving DecidableEq

/-- The link loop at src/index.js lines 70-76: each href is resolved against
the domain and pushed at `depth + 1` iff its absolute form is not in the
(current) visited set and contains the domain string.  Note this consults only
`visited`, never the queue, and does not compare against the depth ceiling. -/
def enqueueLinks (resolve : String → String → String) (domain : String)
    (visited : List String) (depth : Nat) (hrefs : List String) : List Entry :=
  hrefs.foldl
    (fun acc href =>
      let absoluteURL := resolve href domain
      if !visited.contains absoluteURL && containsSubstr absoluteURL domain then
        acc ++ [{ url := absoluteURL, depth := depth + 1 }]
      else acc) []

/-- One iteration of the `while (queue.length > 0)` loop (src/index.js lines
57-80).  `fetch` models `fetchHTML`: `none` when every retry failed (the
function returns `null` and line 64 continues), otherwise the ordered hrefs of
the page's anchors, consumed both by `extractProductURLs` and the link loop. -/
def crawlStep (fetch : String → Option (List String))
    (resolve : String → String → String) (domain : String) (maxDepth : Nat)
    (s : CrawlState) : CrawlState :=
  match s.queue with
  | [] => s
  | e :: rest =>
    if s.visited.contains e.url || decide (maxDepth < e.depth) then
      { s with queue := rest, dequeuedLog := s.dequeuedLog ++ [e] }
    else
      let visitedNew := s.visited ++ [e.url]
      match fetch e.url with
      | none =>
        { queue := rest
          visited := visitedNew
          productURLs := s.productURLs
          dequeuedLog := s.dequeuedLog ++ [e]
          processedLog := s.processedLog ++ [e] }
      | some hrefs =>
        { queue := rest ++ enqueueLinks resolve domain visitedNew e.depth hrefs
          visited := visitedNew
          productURLs :=
            addAll s.productURLs (extractProductURLs resolve domain hrefs)
          dequeuedLog := s.dequeuedLog ++ [e]
          processedLog := s.processedLog ++ [e] }

/-- Fuel-indexed run of the `crawlDomain` loop: executes at most `fuel`
iterations, stopping early when the queue is empty (the loop condition). -/
def crawlLoop (fetch : String → Option (List String))
    (resolve : String → String → String) (domain : String) (maxDepth : Nat) :
    Nat → CrawlState → CrawlState
  | 0, s => s
  | Nat.succ fuel, s =>
    match s.queue with
    | [] => s
    | _ :: _ =>
      crawlLoop fetch resolve domain maxDepth fuel
        (crawlStep fetch resolve domain maxDepth s)

/-- Initial state of `crawlDomain(domain, maxDepth)` (src/index.js lines
53-55): the queue holds the base URL at depth 0 and all sets are empty. -/
def initState (domain : String) : CrawlState :=
  { queue := [{ url := domain, depth := 0 }]
    visited := []
    productURLs := []
    dequeuedLog := []
    processedLog := [] }

/-- Termination of one domain's worker (src/index.js lines 86-92): the worker
posts a message carrying its result list, or the thread raises an error. -/
inductive WorkerResult where
  | message (results : List String)
  | error
deriving DecidableEq

/-- Aggregation in `crawlDomains` (src/index.js lines 95-114): the `message`
handler pushes `{ domain, results }` onto the shared array, the `error`
handler pushes nothing.  Worker completion order is scheduler dependent; we
model completions arriving in configuration order, which is irrelevant to the
membership facts proved below. -/
def pushResult (run : String → WorkerResult)
    (acc : List (String × List String)) (d : String) :
    List (String × List String) :=
  match run d with
  | WorkerResult.message rs => acc ++ [(d, rs)]
  | WorkerResult.error => acc

/-- The `results` array of `crawlDomains` once every worker has finished. -/
def crawlDomainsResults (run : String → WorkerResult)
    (domains : List String) : List (String × List String) :=
  domains.foldl (pushResult run) []

/-- The entry domain `d` contributes to the `results` array: its message
payload, or nothing when its worker errored. -/
def outcomeOf (run : String → WorkerResult) (d : String) :
    Option (String × List String) :=
  match run d with
  | WorkerResult.message rs => some (d, rs)
  | WorkerResult.error => none

/-- Both the `message` and the `error` handler increment `completed` exactly
once (src/index.js lines 104 and 109). -/
def workerIncrement : WorkerResult → Nat
  | WorkerResult.message _ => 1
  | WorkerResult.error => 1

/-- Value of the `completed` counter after the first `k` workers have
finished. -/
def completedAfter (run : String → WorkerResult) (domains : List String)
    (k : Nat) : Nat :=
  ((domains.take k).map (fun d => workerIncrement (run d))).sum

/-- The resolve condition `completed === domains.length` tested by both
handlers (src/index.js lines 105 and 110), after `k` workers finished. -/
def resolveFires (run : String → WorkerResult) (domains : List String)
    (k : Nat) : Bool :=
  completedAfter run domains k == domains.length

end IndexCrawler

namespace Scroll

/-- The body of `handleInfiniteScroll`'s while loop (src/server.js lines
195-214), with `heights k` modelling the value of
`document.body.scrollHeight` at its `k`-th evaluation (`heights 0` is the
reading taken before the loop, `heights (k+1)` the reading taken after the
`k+1`-th scroll).  Arguments: `last` is `lastHeight`, `scrolls` counts scrolls
performed so far, and the final argument is `maxScrolls - scrollAttempts`,
the remaining iterations the condition admits.  Returns the total number of
scroll actions performed. -/
def scrollGo (heights : Nat → Nat) (last scrolls : Nat) : Nat → Nat
  | 0 => scrolls
  | Nat.succ rem =>
    let newHeight := heights (scrolls + 1)
    if newHeight == last then scrolls + 1
    else scrollGo heights newHeight (scrolls + 1) rem

/-- Number of scrolls performed by `handleInfiniteScroll` for a page whose
scroll heights are given by `heights`, with the source's `maxScrolls = 3`. -/
def scrollCount (heights : Nat → Nat) : Nat := scrollGo heights (heights 0) 0 3

end Scroll

namespace UrlModel

/-!
Model of the WHATWG URL resolution `new URL(href, base).toString()` invoked at
src/index.js line 72 (and src/unnamed/part_000 line 65).  The repository
applies no post-processing to this value; in particular it never clears
`url.hash`, so the serialization keeps the fragment.  The model covers the
URL shapes that occur during a crawl: http(s) bases, absolute http(s) hrefs,
hrefs with a non-special scheme (`mailto:`, `javascript:`, ...; kept verbatim
as WHATWG serializes their opaque path), and relative hrefs (path-absolute,
path-relative, query-only, fragment-only, empty, protocol-relative).  Host and
scheme case folding and percent-encoding are not modelled, and a special
scheme not followed by `//` is treated as a parse failure. -/

/-- Splits the character list at the first occurrence of `sep`; the second
component is `none` when `sep` does not occur. -/
def splitFirst (sep : Char) : List Char → List Char × Option (List Char)
  | [] => ([], none)
  | c :: cs =>
    if c == sep then ([], some cs)
    else
      let (pre, post) := splitFirst sep cs
      (c :: pre, post)

/-- Splits the character list at every occurrence of `sep`, with accumulator
for the current piece (in reverse). -/
def splitAllAux (sep : Char) : List Char → List Char → List (List Char)
  | [], acc => [acc.reverse]
  | c :: cs, acc =>
    if c == sep then acc.reverse :: splitAllAux sep cs []
    else splitAllAux sep cs (c :: acc)

/-- Path segments of a slash-separated character list. -/
def segsOf (p : List Char) : List String :=
  (splitAllAux '/' p []).map List.asString

/-- A parsed http(s) URL: scheme, host, path segments, optional query and
optional fragment. -/
structure HttpUrl where
  scheme : String
  host : String
  path : List String
  query : Option String
  fragment : Option String
deriving DecidableEq

/-- Core of the `remove_dot_segments` algorithm of RFC 3986 §5.2.4 on path
segments, as performed by the WHATWG path parser: `.` segments are dropped and
`..` segments drop the previous output segment. -/
def rdsCore : List String → List String → List String
  | [], out => out
  | seg :: rest, out =>
    if seg == "." then rdsCore rest out
    else if seg == ".." then rdsCore rest out.dropLast
    else rdsCore rest (out ++ [seg])

/-- True for the two dot segments. -/
def isDotSeg (s : String) : Bool := s == "." || s == ".."

/-- `remove_dot_segments`: a trailing dot segment additionally leaves a
trailing empty segment (the directory's trailing slash). -/
def rds (segs : List String) : List String :=
  match segs.getLast? with
  | some s => if isDotSeg s then rdsCore segs [] ++ [""] else rdsCore segs []
  | none => []

/-- Serializes an optional URL component with its prefix character. -/
def optPart (pre : String) : Option String → String
  | none => ""
  | some s => pre ++ s

/-- Joins path segments with `/`. -/
def joinSegs : List String → String
  | [] => ""
  | [s] => s
  | s :: rest => s ++ "/" ++ joinSegs rest

/-- WHATWG serialization of an http(s) URL. -/
def serialize (u : HttpUrl) : String :=
  u.scheme ++ "://" ++ u.host ++ "/" ++ joinSegs u.path
    ++ optPart "?" u.query ++ optPart "#" u.fragment

/-- Path segments of the part after the host: no slash at all is the empty
path, otherwise dot segments of the slash-split path are resolved. -/
def pathOfPart : Option (List Char) → List String
  | none => []
  | some p => rds (segsOf p)

/-- Parses `host[/path][?query][#fragment]` (the part after `scheme://`);
fails when the host is empty, as the URL constructor throws there. -/
def parseRest (scheme : String) (s : List Char) : Option HttpUrl :=
  let beforeFrag := (splitFirst '#' s).1
  let frag := (splitFirst '#' s).2
  let beforeQuery := (splitFirst '?' beforeFrag).1
  let query := (splitFirst '?' beforeFrag).2
  let host := (splitFirst '/' beforeQuery).1
  let pathPart := (splitFirst '/' beforeQuery).2
  if host.isEmpty then none
  else
    some
      { scheme := scheme
        host := host.asString
        path := pathOfPart pathPart
        query := query.map List.asString
        fragment := frag.map List.asString }

/-- True for the characters allowed in a scheme. -/
def isSchemeChar (c : Char) : Bool :=
  c.isAlphanum || c == '+' || c == '-' || c == '.'

/-- Reads a scheme prefix up to `:`, returning it with the remainder. -/
def schemeChars : List Char → Option (List Char × List Char)
  | [] => none
  | c :: cs =>
    if c == ':' then some ([], cs)
    else if isSchemeChar c then
      match schemeChars cs with
      | some (pre, rest) => some (c :: pre, rest)
      | none => none
    else none

/-- The scheme of a URL string, if it has one beginning with a letter. -/
def schemeOf (s : List Char) : Option (String × List Char) :=
  match schemeChars s with
  | some (pre, rest) =>
    match pre with
    | [] => none
    | c :: _ => if c.isAlpha then some (pre.asString, rest) else none
  | none => none

/-- Parses an absolute http(s) URL string. -/
def parseAbs (s : String) : Option HttpUrl :=
  match schemeOf s.toList with
  | some (sch, '/' :: '/' :: tail) =>
    if sch == "http" || sch == "https" then parseRest sch tail else none
  | _ => none

/-- Resolves a scheme-less href against a parsed base, per RFC 3986 §5.2 as
instantiated by the WHATWG parser.  The fragment of the base is never
inherited; the query is inherited only by fragment-only and empty hrefs. -/
def resolveRelative (b : HttpUrl) (h : List Char) : Option HttpUrl :=
  match h with
  | '/' :: '/' :: tail => parseRest b.scheme tail
  | _ =>
    let beforeFrag := (splitFirst '#' h).1
    let frag := ((splitFirst '#' h).2).map List.asString
    let beforeQuery := (splitFirst '?' beforeFrag).1
    let query := ((splitFirst '?' beforeFrag).2).map List.asString
    if beforeQuery.isEmpty then
      match (splitFirst '?' beforeFrag).2 with
      | some q => some { b with query := some q.asString, fragment := frag }
      | none =>
        match frag with
        | some f => some { b with fragment := some f }
        | none => some { b with fragment := none }
    else
      match beforeQuery with
      | '/' :: pt =>
        some { b with path := rds (segsOf pt), query := query, fragment := frag }
      | _ =>
        some
          { b with
            path := rds (b.path.dropLast ++ segsOf beforeQuery)
            query := query
            fragment := frag }

/-- Outcome of URL resolution: an http(s) URL, or a URL with a non-special
scheme whose serialization is the input itself. -/
inductive Resolved where
  | httpUrl (u : HttpUrl)
  | nonSpecial (s : String)
deriving DecidableEq

/-- Structured result of `new URL(href, base)`: `none` models a thrown
`TypeError` (which src/index.js does not catch). -/
def urlResolveR (href base : String) : Option Resolved :=
  match schemeOf href.toList with
  | some (sch, rest) =>
    if sch == "http" || sch == "https" then
      match rest with
      | '/' :: '/' :: tail => (parseRest sch tail).map Resolved.httpUrl
      | _ => none
    else some (Resolved.nonSpecial href)
  | none =>
    match parseAbs base with
    | none => none
    | some b => (resolveRelative b href.toList).map Resolved.httpUrl

/-- `new URL(href, base).toString()`: the serialized resolution. -/
def urlResolve (href base : String) : Option String :=
  (urlResolveR href base).map fun r =>
    match r with
    | Resolved.httpUrl u => serialize u
    | Resolved.nonSpecial s => s

end UrlModel

/-! ## Helper lemmas -/

theorem mem_insertSet {s : List String} {x y : String} :
    x ∈ insertSet s y ↔ x ∈ s ∨ x = y := by
  by_cases h : y ∈ s
  · rw [insertSet, if_pos (List.elem_iff.mpr h)]
    constructor
    · exact Or.inl
    · rintro (hx | rfl)
      · exact hx
      · exact h
  · have hc : ¬s.contains y = true := fun hh => h (List.elem_iff.mp hh)
    rw [insertSet, if_neg hc]
    simp [List.mem_append]

theorem mem_foldl_insertSet {l : List String} {s : List String} {x : String} :
    x ∈ l.foldl insertSet s ↔ x ∈ s ∨ x ∈ l := by
  induction l generalizing s with
  | nil => simp
  | cons a rest ih =>
    simp only [List.foldl_cons, ih, mem_insertSet, List.mem_cons]
    tauto

namespace Server

theorem linkFold_confirmed (parse : String → Option String)
    (render : String → Option PageIndicators) (domain : String) :
    ∀ (links : List String) (st : SState),
      (links.foldl (linkStep parse render domain) st).confirmed =
        (links.filter (classifiesConfirmed parse render domain)).foldl
          insertSet st.confirmed := by
  intro links
  induction links with
  | nil => intro st; rfl
  | cons l rest ih =>
    intro st
    simp only [List.foldl_cons, List.filter_cons]
    cases hp : (isProductUrl l && isSameDomain parse l domain) with
    | false =>
      have hc : classifiesConfirmed parse render domain l = false := by
        unfold classifiesConfirmed
        cases hq : isProductUrl l <;> cases hr : isSameDomain parse l domain <;>
          simp_all [Bool.and_eq_true]
      simp [linkStep, hp, hc, ih]
    | true =>
      cases hv : isValidProductPage render l with
      | true =>
        have hc : classifiesConfirmed parse render domain l = true := by
          unfold classifiesConfirmed
          simp [hp, hv]
        simp [linkStep, hp, hv, hc, ih]
      | false =>
        have hc : classifiesConfirmed parse render domain l = false := by
          unfold classifiesConfirmed
          simp [hp, hv]
        simp [linkStep, hp, hv, hc, ih]

theorem linkFold_failed (parse : String → Option String)
    (render : String → Option PageIndicators) (domain : String) :
    ∀ (links : List String) (st : SState),
      (links.foldl (linkStep parse render domain) st).failed =
        (links.filter (classifiesFailed parse render domain)).foldl
          insertSet st.failed := by
  intro links
  induction links with
  | nil => intro st; rfl
  | cons l rest ih =>
    intro st
    simp only [List.foldl_cons, List.filter_cons]
    cases hp : (isProductUrl l && isSameDomain parse l domain) with
    | false =>
      have hc : classifiesFailed parse render domain l = false := by
        unfold classifiesFailed
        cases hq : isProductUrl l <;> cases hr : isSameDomain parse l domain <;>
          simp_all [Bool.and_eq_true]
      simp [linkStep, hp, hc, ih]
    | true =>
      cases hv : isValidProductPage render l with
      | true =>
        have hc : classifiesFailed parse render domain l = false := by
          unfold classifiesFailed
          simp [hp, hv]
        simp [linkStep, hp, hv, hc, ih]
      | false =>
        have hc : classifiesFailed parse render domain l = true := by
          unfold classifiesFailed
          simp [hp, hv]
        simp [linkStep, hp, hv, hc, ih]

theorem linkFold_visited (parse : String → Option String)
    (render : String → Option PageIndicators) (domain : String) :
    ∀ (links : List String) (st : SState),
      (links.foldl (linkStep parse render domain) st).visited = st.visited := by
  intro links
  induction links with
  | nil => intro st; rfl
  | cons l rest ih =>
    intro st
    simp only [List.foldl_cons]
    rw [ih]
    unfold linkStep
    split <;> try rfl
    split <;> rfl

end Server

namespace IndexCrawler

/-- Loop invariant of `crawlDomain`: the visited set is exactly the list of
processed URLs, in processing order and without duplicates. -/
def urlsInv (s : CrawlState) : Prop :=
  s.visited = s.processedLog.map Entry.url ∧ s.visited.Nodup

theorem crawlStep_urlsInv (fetch : String → Option (List String))
    (resolve : String → String → String) (domain : String) (maxDepth : Nat)
    (s : CrawlState) (h : urlsInv s) :
    urlsInv (crawlStep fetch resolve domain maxDepth s) := by
  obtain ⟨h1, h2⟩ := h
  unfold crawlStep
  cases hq : s.queue with
  | nil => exact ⟨h1, h2⟩
  | cons e rest =>
    by_cases hg : (s.visited.contains e.url || decide (maxDepth < e.depth)) = true
    · simp only [hg, if_true]
      exact ⟨h1, h2⟩
    · have hnc : e.url ∉ s.visited := by
        intro hm
        exact hg (Bool.or_inl (List.elem_iff.mpr hm))
      have hnodup : (s.visited ++ [e.url]).Nodup := by
        rw [List.nodup_append]
        refine ⟨h2, List.nodup_singleton _, ?_⟩
        intro x hx hy
        rw [List.mem_singleton] at hy
        exact hnc (hy ▸ hx)
      simp only [Bool.not_eq_true] at hg
      simp only [hg, Bool.false_eq_true, if_false]
      cases hf : fetch e.url with
      | none =>
        refine ⟨?_, hnodup⟩
        simp [h1]
      | some hrefs =>
        refine ⟨?_, hnodup⟩
        simp [h1]

theorem crawlLoop_urlsInv (fetch : String → Option (List String))
    (resolve : String → String → String) (domain : String) (maxDepth : Nat) :
    ∀ (fuel : Nat) (s : CrawlState), urlsInv s →
      urlsInv (crawlLoop fetch resolve domain maxDepth fuel s) := by
  intro fuel
  induction fuel with
  | zero => intro s h; exact h
  | succ n ih =>
    intro s h
    unfold crawlLoop
    cases hq : s.queue with
    | nil => exact h
    | cons e rest =>
      exact ih _ (crawlStep_urlsInv fetch resolve domain maxDepth s h)

/-- Loop invariant of `crawlDomain`: every processed entry respects the depth
ceiling. -/
def depthInv (maxDepth : Nat) (s : CrawlState) : Prop :=
  ∀ e ∈ s.processedLog, e.depth ≤ maxDepth

theorem crawlStep_depthInv (fetch : String → Option (List String))
    (resolve : String → String → String) (domain : String) (maxDepth : Nat)
    (s : CrawlState) (h : depthInv maxDepth s) :
    depthInv maxDepth (crawlStep fetch resolve domain maxDepth s) := by
  unfold crawlStep
  cases hq : s.queue with
  | nil => exact h
  | cons e rest =>
    by_cases hg : (s.visited.contains e.url || decide (maxDepth < e.depth)) = true
    · simp only [hg, if_true]
      exact h
    · have hd : e.depth ≤ maxDepth := by
        rcases Bool.or_eq_false_iff.mp (Bool.not_eq_true _ |>.mp hg) with ⟨-, hdec⟩
        have := of_decide_eq_false hdec
        omega
      simp only [Bool.not_eq_true] at hg
      simp only [hg, Bool.false_eq_true, if_false]
      cases hf : fetch e.url with
      | none =>
        intro x hx
        simp only [List.mem_append, List.mem_singleton] at hx
        rcases hx with hx | rfl
        · exact h x hx
        · exact hd
      | some hrefs =>
        intro x hx
        simp only [List.mem_append, List.mem_singleton] at hx
        rcases hx with hx | rfl
        · exact h x hx
        · exact hd

theorem crawlLoop_depthInv (fetch : String → Option (List String))
    (resolve : String → String → String) (domain : String) (maxDepth : Nat) :
    ∀ (fuel : Nat) (s : CrawlState), depthInv maxDepth s →
      depthInv maxDepth (crawlLoop fetch resolve domain maxDepth fuel s) := by
  intro fuel
  induction fuel with
  | zero => intro s h; exact h
  | succ n ih =>
    intro s h
    unfold crawlLoop
    cases hq : s.queue with
    | nil => exact h
    | cons e rest =>
      exact ih _ (crawlStep_depthInv fetch resolve domain maxDepth s h)

theorem foldl_pushResult (run : String → WorkerResult) :
    ∀ (domains : List String) (acc : List (String × List String)),
      domains.foldl (pushResult run) acc =
        acc ++ domains.filterMap (outcomeOf run) := by
  intro domains
  induction domains with
  | nil => intro acc; simp
  | cons d ds ih =>
    intro acc
    simp only [List.foldl_cons, List.filterMap_cons]
    cases hr : run d with
    | message rs => simp [pushResult, outcomeOf, hr, ih]
    | error => simp [pushResult, outcomeOf, hr, ih]

theorem completedAfter_min (run : String → WorkerResult)
    (domains : List String) (k : Nat) :
    completedAfter run domains k = min k domains.length := by
  unfold completedAfter
  have hsum : ∀ (l : List String),
      (l.map (fun d => workerIncrement (run d))).sum = l.length := by
    intro l
    induction l with
    | nil => simp
    | cons d ds ih =>
      have h1 : workerIncrement (run d) = 1 := by cases run d <;> rfl
      simp only [List.map_cons, List.sum_cons, h1, ih, List.length_cons]
      omega
  rw [hsum, List.length_take]

end IndexCrawler

namespace Scroll

theorem scrollGo_le (heights : Nat → Nat) :
    ∀ (rem last scrolls : Nat), scrollGo heights last scrolls rem ≤ scrolls + rem := by
  intro rem
  induction rem with
  | zero => intro last scrolls; simp [scrollGo]
  | succ n ih =>
    intro last scrolls
    simp only [scrollGo]
    split
    · omega
    · have := ih (heights (scrolls + 1)) (scrolls + 1)
      omega

end Scroll

namespace UrlModel

theorem rdsCore_no_dots :
    ∀ (segs out : List String), "." ∉ out → ".." ∉ out →
      "." ∉ rdsCore segs out ∧ ".." ∉ rdsCore segs out := by
  intro segs
  induction segs with
  | nil => intro out h1 h2; exact ⟨h1, h2⟩
  | cons seg rest ih =>
    intro out h1 h2
    unfold rdsCore
    by_cases hd : seg = "."
    · simp only [hd, beq_self_eq_true, if_true]
      exact ih out h1 h2
    · by_cases hdd : seg = ".."
      · have hne : (seg == ".") = false := beq_eq_false_iff_ne.mpr hd
        simp only [hne, Bool.false_eq_true, if_false, hdd, beq_self_eq_true, if_true]
        exact ih out.dropLast
          (fun hm => h1 (List.dropLast_subset out hm))
          (fun hm => h2 (List.dropLast_subset out hm))
      · have hne : (seg == ".") = false := beq_eq_false_iff_ne.mpr hd
        have hne2 : (seg == "..") = false := beq_eq_false_iff_ne.mpr hdd
        simp only [hne, hne2, Bool.false_eq_true, if_false]
        refine ih (out ++ [seg]) ?_ ?_
        · intro hm
          rcases List.mem_append.mp hm with hm | hm
          · exact h1 hm
          · rw [List.mem_singleton] at hm; exact hd hm.symm
        · intro hm
          rcases List.mem_append.mp hm with hm | hm
          · exact h2 hm
          · rw [List.mem_singleton] at hm; exact hdd hm.symm

theorem rds_no_dots (segs : List String) :
    "." ∉ rds segs ∧ ".." ∉ rds segs := by
  unfold rds
  cases hl : segs.getLast? with
  | none => simp
  | some s =>
    obtain ⟨hc1, hc2⟩ := rdsCore_no_dots segs [] (by simp) (by simp)
    by_cases hd : isDotSeg s = true
    · simp only [hd, if_true]
      constructor
      · intro hm
        rcases List.mem_append.mp hm with hm | hm
        · exact hc1 hm
        · rw [List.mem_singleton] at hm; exact absurd hm.symm (by decide)
      · intro hm
        rcases List.mem_append.mp hm with hm | hm
        · exact hc2 hm
        · rw [List.mem_singleton] at hm; exact absurd hm.symm (by decide)
    · simp only [Bool.not_eq_true] at hd
      simp only [hd, Bool.false_eq_true, if_false]
      exact ⟨hc1, hc2⟩

theorem pathOfPart_no_dots (o : Option (List Char)) :
    "." ∉ pathOfPart o ∧ ".." ∉ pathOfPart o := by
  cases o with
  | none => simp [pathOfPart]
  | some p => exact rds_no_dots _

theorem parseRest_no_dots (scheme : String) (s : List Char) (u : HttpUrl)
    (h : parseRest scheme s = some u) : "." ∉ u.path ∧ ".." ∉ u.path := by
  simp only [parseRest] at h
  split at h
  · exact absurd h (by simp)
  · rw [Option.some_inj] at h
    subst h
    exact pathOfPart_no_dots _

theorem parseAbs_no_dots (s : String) (u : HttpUrl)
    (h : parseAbs s = some u) : "." ∉ u.path ∧ ".." ∉ u.path := by
  unfold parseAbs at h
  split at h
  · split at h
    · exact parseRest_no_dots _ _ _ h
    · exact absurd h (by simp)
  · exact absurd h (by simp)

theorem resolveRelative_no_dots (b : HttpUrl) (h : List Char) (u : HttpUrl)
    (hb : "." ∉ b.path ∧ ".." ∉ b.path)
    (hr : resolveRelative b h = some u) : "." ∉ u.path ∧ ".." ∉ u.path := by
  unfold resolveRelative at hr
  split at hr
  · exact parseRest_no_dots _ _ _ hr
  · simp only at hr
    split at hr
    · split at hr
      · rw [Option.some_inj] at hr; subst hr; exact hb
      · split at hr
        · rw [Option.some_inj] at hr; subst hr; exact hb
        · rw [Option.some_inj] at hr; subst hr; exact hb
    · split at hr
      · rw [Option.some_inj] at hr; subst hr; exact rds_no_dots _
      · rw [Option.some_inj] at hr; subst hr; exact rds_no_dots _

end UrlModel

/-! ## Claims -/

/-- C1 (counterexample): the claim states that a domain whose worker errors
catastrophically still yields exactly one per-domain outcome entry, with empty
confirmed set and all-failed URLs.  In `crawlDomains` (src/index.js lines
95-114) the `error` handler only increments `completed`: for the configured
domain list `["flipkart.com"]` whose single worker errors, the aggregated
results array is empty — the domain's entry is missing — while completion is
nonetheless signaled (`completed === domains.length` holds after the error). -/
theorem c1_crashed_worker_entry_missing :
    IndexCrawler.crawlDomainsResults (fun _ => IndexCrawler.WorkerResult.error)
        ["flipkart.com"] = [] ∧
    IndexCrawler.resolveFires (fun _ => IndexCrawler.WorkerResult.error)
        ["flipkart.com"] 1 = true := by
  constructor <;> rfl

/-- C1 (amended): the aggregated results array contains exactly the entries of
the domains whose workers posted a message, in order — a domain whose worker
errored is omitted entirely, not converted into an empty-confirmed, all-failed
outcome; overall completion is still signaled only once every domain's worker
has either messaged or errored (the resolve condition is false while fewer
than `domains.length` workers have finished, and true once all have). -/
theorem c1_results_characterization :
    ∀ (run : String → IndexCrawler.WorkerResult) (domains : List String),
      IndexCrawler.crawlDomainsResults run domains =
        domains.filterMap (IndexCrawler.outcomeOf run) ∧
      (∀ k, k < domains.length →
        IndexCrawler.resolveFires run domains k = false) ∧
      IndexCrawler.resolveFires run domains domains.length = true := by
  intro run domains
  refine ⟨?_, ?_, ?_⟩
  · rw [IndexCrawler.crawlDomainsResults, IndexCrawler.foldl_pushResult]
    simp
  · intro k hk
    rw [IndexCrawler.resolveFires, IndexCrawler.completedAfter_min]
    simp only [beq_eq_false_iff_ne]
    omega
  · rw [IndexCrawler.resolveFires, IndexCrawler.completedAfter_min]
    simp

/-- C1 (witness): the amended characterization applied to concrete runs — two
domains whose workers both error do not signal completion after one worker,
do signal it after both, and a messaged domain contributes its entry. -/
theorem c1_results_characterization_witness :
    IndexCrawler.resolveFires (fun _ => IndexCrawler.WorkerResult.error)
        ["a.com", "b.com"] 1 = false ∧
    IndexCrawler.resolveFires (fun _ => IndexCrawler.WorkerResult.error)
        ["a.com", "b.com"] 2 = true ∧
    IndexCrawler.crawlDomainsResults
        (fun d => IndexCrawler.WorkerResult.message [d]) ["a.com"] =
      [("a.com", ["a.com"])] := by
  refine ⟨(c1_results_characterization _ _).2.1 1 (by decide),
    (c1_results_characterization (fun _ => IndexCrawler.WorkerResult.error)
      ["a.com", "b.com"]).2.2, ?_⟩
  rw [(c1_results_characterization _ _).1]
  rfl

/-- C2 (counterexample): the claim states that a URL enters a domain's
frontier queue at most once and is never dequeued more than once.  In
`crawlDomain` (src/index.js lines 52-83) the enqueue guard checks only the
visited set, which is updated at dequeue time: when the base page links twice
to the same URL, that URL is pushed twice and shifted off the queue twice (the
second occurrence is then discarded by the dequeue guard). -/
theorem c2_url_dequeued_twice :
    (IndexCrawler.crawlLoop
        (fun u => if u == "https://www.flipkart.com" then
            some ["https://www.flipkart.com/a", "https://www.flipkart.com/a"]
          else none)
        (fun h b => (UrlModel.urlResolve h b).getD "")
        "https://www.flipkart.com" 3 5
        (IndexCrawler.initState "https://www.flipkart.com")).dequeuedLog =
      [{ url := "https://www.flipkart.com", depth := 0 },
       { url := "https://www.flipkart.com/a", depth := 1 },
       { url := "https://www.flipkart.com/a", depth := 1 }] ∧
    ((IndexCrawler.crawlLoop
        (fun u => if u == "https://www.flipkart.com" then
            some ["https://www.flipkart.com/a", "https://www.flipkart.com/a"]
          else none)
        (fun h b => (UrlModel.urlResolve h b).getD "")
        "https://www.flipkart.com" 3 5
        (IndexCrawler.initState "https://www.flipkart.com")).dequeuedLog.count
      { url := "https://www.flipkart.com/a", depth := 1 }) = 2 := by
  constructor <;> decide

/-- C2 (amended): a URL may enter the frontier several times (the enqueue
guard tests only the visited set, which grows at processing time, not queue
membership), but every URL is processed — fetched and expanded — at most once
over the whole crawl: the dequeue guard skips entries whose URL is already
visited, so the processed log never repeats a URL and equals the visited set. -/
theorem c2_url_processed_at_most_once :
    ∀ (fetch : String → Option (List String))
      (resolve : String → String → String) (domain : String)
      (maxDepth fuel : Nat),
      ((IndexCrawler.crawlLoop fetch resolve domain maxDepth fuel
          (IndexCrawler.initState domain)).processedLog.map
        IndexCrawler.Entry.url).Nodup := by
  intro fetch resolve domain maxDepth fuel
  obtain ⟨h1, h2⟩ := IndexCrawler.crawlLoop_urlsInv fetch resolve domain
    maxDepth fuel (IndexCrawler.initState domain) ⟨rfl, List.nodup_nil⟩
  rw [← h1]
  exact h2

/-- C3 (counterexample): the claim states that `enqueue(url, depth)` is a
no-op when `depth` exceeds the ceiling and otherwise inserts the url into the
visited set, and that no frontier entry with depth above the ceiling is ever
dequeued.  With ceiling 0, the base page's link is pushed at depth 1 (the
enqueue is not a no-op and touches no visited set) and that entry is then
shifted off the queue — only the subsequent guard discards it. -/
theorem c3_overdepth_entry_enqueued_and_dequeued :
    (IndexCrawler.crawlLoop
        (fun u => if u == "https://www.flipkart.com" then
            some ["https://www.flipkart.com/a"] else none)
        (fun h b => (UrlModel.urlResolve h b).getD "")
        "https://www.flipkart.com" 0 5
        (IndexCrawler.initState "https://www.flipkart.com")) =
      { queue := []
        visited := ["https://www.flipkart.com"]
        productURLs := []
        dequeuedLog := [{ url := "https://www.flipkart.com", depth := 0 },
                        { url := "https://www.flipkart.com/a", depth := 1 }]
        processedLog := [{ url := "https://www.flipkart.com", depth := 0 }] } := by
  decide

/-- C3 (amended): the enqueue at src/index.js lines 70-76 filters only on
visited-set membership and domain scope, and the visited set is updated at
processing time; the depth ceiling is enforced by the dequeue guard (line 60)
instead: an entry with depth above the ceiling can be enqueued and dequeued,
but is never processed — every processed entry has depth at most the ceiling. -/
theorem c3_processed_entries_respect_ceiling :
    ∀ (fetch : String → Option (List String))
      (resolve : String → String → String) (domain : String)
      (maxDepth fuel : Nat) (e : IndexCrawler.Entry),
      e ∈ (IndexCrawler.crawlLoop fetch resolve domain maxDepth fuel
          (IndexCrawler.initState domain)).processedLog →
      e.depth ≤ maxDepth := by
  intro fetch resolve domain maxDepth fuel e he
  exact IndexCrawler.crawlLoop_depthInv fetch resolve domain maxDepth fuel
    (IndexCrawler.initState domain)
    (by intro x hx; exact absurd hx (List.not_mem_nil x)) e he

/-- C3 (witness): the amended bound applied to a concrete one-step crawl with
ceiling 0, whose processed log holds exactly the base entry at depth 0. -/
theorem c3_processed_entries_respect_ceiling_witness :
    ({ url := "https://www.flipkart.com", depth := 0 } :
      IndexCrawler.Entry).depth ≤ 0 :=
  c3_processed_entries_respect_ceiling (fun _ => none) (fun h _ => h)
    "https://www.flipkart.com" 0 1 _ (by decide)

/-- C4 (counterexample): the claim states that in-scope NonProduct links are
enqueued on the frontier at depth+1.  In `EcommerceCrawler.processUrl`
(src/server.js lines 175-187) a link that is in scope but matches no product
pattern falls through both branches: for a base page whose only link is the
in-scope non-product URL `https://www.amazon.com/about`, the final state shows
the link was neither visited, nor confirmed, nor failed — it is discarded,
and no frontier exists to receive it (`processUrl` never recurses). -/
theorem c4_inscope_nonproduct_link_discarded :
    Server.isProductUrl "https://www.amazon.com/about" = false ∧
    Server.isSameDomain
        (fun u => if strStartsWith u "https://www.amazon.com" then
          some "www.amazon.com" else none)
        "https://www.amazon.com/about" "amazon.com" = true ∧
    Server.processUrl
        (fun u => if strStartsWith u "https://www.amazon.com" then
          some "www.amazon.com" else none)
        (fun _ => none)
        (fun u => if u == "https://www.amazon.com" then
            Server.PageResult.ok ["https://www.amazon.com/about"]
          else Server.PageResult.err)
        "amazon.com" "https://www.amazon.com"
        { confirmed := [], failed := [], visited := [] } =
      { confirmed := [], failed := [],
        visited := ["https://www.amazon.com"] } := by
  refine ⟨by decide, by decide, by decide⟩

/-- C4 (amended): for a successfully rendered page, the confirmed set gains
exactly the selected links (first 5 starting with `http`) that match a product
pattern, are in scope, and pass verification; the failed set gains exactly the
selected pattern-matching in-scope links that fail verification; every other
link — including in-scope non-product links — is discarded, and the visited
set gains only the processed url itself (nothing is ever enqueued: the crawl
of a domain fetches only its base URL). -/
theorem c4_link_pipeline_characterization :
    ∀ (parse : String → Option String)
      (render : String → Option Server.PageIndicators)
      (fetch : String → Server.PageResult) (domain url : String)
      (st : Server.SState) (links : List String),
      st.visited.contains url = false →
      fetch url = Server.PageResult.ok links →
      (Server.processUrl parse render fetch domain url st).confirmed =
          ((Server.selectedLinks links).filter
            (Server.classifiesConfirmed parse render domain)).foldl insertSet
            st.confirmed ∧
        (Server.processUrl parse render fetch domain url st).failed =
          ((Server.selectedLinks links).filter
            (Server.classifiesFailed parse render domain)).foldl insertSet
            st.failed ∧
        (Server.processUrl parse render fetch domain url st).visited =
          st.visited ++ [url] := by
  intro parse render fetch domain url st links hv hf
  have hp : Server.processUrl parse render fetch domain url st =
      (Server.selectedLinks links).foldl (Server.linkStep parse render domain)
        { st with visited := st.visited ++ [url] } := by
    unfold Server.processUrl
    simp only [hv, Bool.false_eq_true, if_false, hf]
  refine ⟨?_, ?_, ?_⟩
  · rw [hp, Server.linkFold_confirmed]
  · rw [hp, Server.linkFold_failed]
  · rw [hp, Server.linkFold_visited]

/-- C4 (witness): the pipeline characterization applied to a concrete page
with one verified product link and one in-scope non-product link. -/
theorem c4_link_pipeline_characterization_witness :
    (Server.processUrl (fun _ => some "www.amazon.com")
        (fun _ => some ⟨true, true, true, false, false, false⟩)
        (fun _ => Server.PageResult.ok
          ["https://www.amazon.com/dp/B1", "https://www.amazon.com/about"])
        "amazon.com" "https://www.amazon.com"
        { confirmed := [], failed := [], visited := [] }).confirmed =
      ["https://www.amazon.com/dp/B1"] := by
  rw [(c4_link_pipeline_characterization (fun _ => some "www.amazon.com")
    (fun _ => some ⟨true, true, true, false, false, false⟩)
    (fun _ => Server.PageResult.ok
      ["https://www.amazon.com/dp/B1", "https://www.amazon.com/about"])
    "amazon.com" "https://www.amazon.com"
    { confirmed := [], failed := [], visited := [] } _ (by decide) rfl).1]
  decide

/-- C5 (confirmed): with content verification enabled, a selected link whose
URL matches a product pattern and is in scope but whose page fails content
verification is recorded in the domain's failed set, and the confirmed set is
unchanged as far as that link is concerned — it is neither silently dropped
nor silently confirmed (src/server.js lines 179-187). -/
theorem c5_failed_verification_recorded :
    ∀ (parse : String → Option String)
      (render : String → Option Server.PageIndicators)
      (fetch : String → Server.PageResult) (domain url : String)
      (st : Server.SState) (links : List String) (link : String),
      st.visited.contains url = false →
      fetch url = Server.PageResult.ok links →
      link ∈ Server.selectedLinks links →
      Server.isProductUrl link = true →
      Server.isSameDomain parse link domain = true →
      Server.isValidProductPage render link = false →
      link ∈ (Server.processUrl parse render fetch domain url st).failed ∧
        (link ∈ (Server.processUrl parse render fetch domain url st).confirmed ↔
          link ∈ st.confirmed) := by
  intro parse render fetch domain url st links link hv hf hmem hprod hscope hval
  have hp : Server.processUrl parse render fetch domain url st =
      (Server.selectedLinks links).foldl (Server.linkStep parse render domain)
        { st with visited := st.visited ++ [url] } := by
    unfold Server.processUrl
    simp only [hv, Bool.false_eq_true, if_false, hf]
  constructor
  · rw [hp, Server.linkFold_failed, mem_foldl_insertSet]
    right
    rw [List.mem_filter]
    refine ⟨hmem, ?_⟩
    unfold Server.classifiesFailed
    simp [hprod, hscope, hval]
  · rw [hp, Server.linkFold_confirmed, mem_foldl_insertSet]
    constructor
    · rintro (hc | hc)
      · exact hc
      · exfalso
        rw [List.mem_filter] at hc
        have hcc := hc.2
        unfold Server.classifiesConfirmed at hcc
        rw [hval] at hcc
        simp at hcc
    · exact Or.inl

/-- C5 (witness): the `-p-12345` scenario — a pattern hit whose page has no
price indicator (so verification fails) lands in `failed` and not in
`confirmed`. -/
theorem c5_failed_verification_recorded_witness :
    "https://www.myntra.com/shirt-p-12345" ∈
      (Server.processUrl (fun _ => some "www.myntra.com")
        (fun _ => some ⟨false, true, true, true, true, true⟩)
        (fun _ => Server.PageResult.ok
          ["https://www.myntra.com/shirt-p-12345"])
        "myntra.com" "https://www.myntra.com"
        { confirmed := [], failed := [], visited := [] }).failed ∧
    "https://www.myntra.com/shirt-p-12345" ∉
      (Server.processUrl (fun _ => some "www.myntra.com")
        (fun _ => some ⟨false, true, true, true, true, true⟩)
        (fun _ => Server.PageResult.ok
          ["https://www.myntra.com/shirt-p-12345"])
        "myntra.com" "https://www.myntra.com"
        { confirmed := [], failed := [], visited := [] }).confirmed := by
  have h := c5_failed_verification_recorded (fun _ => some "www.myntra.com")
    (fun _ => some ⟨false, true, true, true, true, true⟩)
    (fun _ => Server.PageResult.ok ["https://www.myntra.com/shirt-p-12345"])
    "myntra.com" "https://www.myntra.com"
    { confirmed := [], failed := [], visited := [] }
    ["https://www.myntra.com/shirt-p-12345"]
    "https://www.myntra.com/shirt-p-12345"
    (by decide) rfl (by decide) (by decide) (by decide) (by decide)
  exact ⟨h.1, fun hc => (List.not_mem_nil _) (h.2.mp hc)⟩

/-- C6 (confirmed): for a page that renders successfully, the content
verification stage of `EcommerceCrawler.isValidProductPage` (src/server.js
lines 239-268) returns true exactly when a price indicator is present AND
(an add-to-cart indicator OR a buy affordance is present) AND (a product
title OR a product image OR descriptive metadata is present). -/
theorem c6_verification_formula :
    ∀ (render : String → Option Server.PageIndicators) (url : String)
      (i : Server.PageIndicators),
      render url = some i →
      (Server.isValidProductPage render url = true ↔
        (i.price = true ∧ (i.addToCart = true ∨ i.buyButton = true) ∧
          (i.productTitle = true ∨ i.productImage = true ∨
            i.metadata = true))) := by
  intro render url i h
  unfold Server.isValidProductPage
  rw [h]
  unfold Server.productSignals
  simp only [Bool.and_eq_true, Bool.or_eq_true]
  tauto

/-- C6 (witness): the formula applied to a concrete indicator assignment —
price with a buy button and a product image verifies. -/
theorem c6_verification_formula_witness :
    Server.isValidProductPage
      (fun _ => some ⟨true, false, false, true, true, false⟩)
      "https://www.amazon.com/dp/B1" = true :=
  (c6_verification_formula (fun _ => some ⟨true, false, false, true, true, false⟩)
    "https://www.amazon.com/dp/B1" ⟨true, false, false, true, true, false⟩
    rfl).mpr ⟨rfl, Or.inr rfl, Or.inr (Or.inl rfl)⟩

/-- C7 (confirmed): per-URL errors stay inside the per-URL boundary.  (a) A
navigation error on `url` itself is caught by `processUrl`'s catch
(src/server.js lines 189-192): the url is recorded in the domain's failed set
and the state is otherwise intact — the worker returns normally rather than
aborting the domain.  (b) A navigation error during verification of one
selected link records that link as failed, and (c) every other selected link
that classifies as confirmed still lands in the confirmed set, so processing
continues past the bad link.  (d) In the `crawlDomain` loop of src/index.js
(lines 57-64), a URL whose every fetch retry fails leaves the rest of the
frontier in place, so the loop continues with the next queued entry. -/
theorem c7_per_url_errors_contained :
    ∀ (parse : String → Option String)
      (render : String → Option Server.PageIndicators)
      (fetch : String → Server.PageResult) (domain url : String)
      (st : Server.SState),
      st.visited.contains url = false →
      (fetch url = Server.PageResult.err →
        Server.processUrl parse render fetch domain url st =
          { confirmed := st.confirmed
            failed := insertSet st.failed url
            visited := st.visited ++ [url] }) ∧
      (∀ (links : List String) (link : String),
        fetch url = Server.PageResult.ok links →
        link ∈ Server.selectedLinks links →
        Server.isProductUrl link = true →
        Server.isSameDomain parse link domain = true →
        render link = none →
        link ∈ (Server.processUrl parse render fetch domain url st).failed) ∧
      (∀ (links : List String) (link : String),
        fetch url = Server.PageResult.ok links →
        link ∈ Server.selectedLinks links →
        Server.classifiesConfirmed parse render domain link = true →
        link ∈ (Server.processUrl parse render fetch domain url st).confirmed) ∧
      (∀ (fetchI : String → Option (List String))
        (resolve : String → String → String) (maxDepth : Nat)
        (s : IndexCrawler.CrawlState) (e : IndexCrawler.Entry)
        (rest : List IndexCrawler.Entry),
        s.queue = e :: rest → s.visited.contains e.url = false →
        e.depth ≤ maxDepth → fetchI e.url = none →
        (IndexCrawler.crawlStep fetchI resolve domain maxDepth s).queue =
          rest) := by
  intro parse render fetch domain url st hv
  refine ⟨?_, ?_, ?_, ?_⟩
  · intro hferr
    unfold Server.processUrl
    simp only [hv, Bool.false_eq_true, if_false, hferr]
  · intro links link hf hmem hprod hscope hrender
    have hval : Server.isValidProductPage render link = false := by
      unfold Server.isValidProductPage
      rw [hrender]
    have hp : Server.processUrl parse render fetch domain url st =
        (Server.selectedLinks links).foldl (Server.linkStep parse render domain)
          { st with visited := st.visited ++ [url] } := by
      unfold Server.processUrl
      simp only [hv, Bool.false_eq_true, if_false, hf]
    rw [hp, Server.linkFold_failed, mem_foldl_insertSet]
    right
    rw [List.mem_filter]
    refine ⟨hmem, ?_⟩
    unfold Server.classifiesFailed
    simp [hprod, hscope, hval]
  · intro links link hf hmem hclass
    have hp : Server.processUrl parse render fetch domain url st =
        (Server.selectedLinks links).foldl (Server.linkStep parse render domain)
          { st with visited := st.visited ++ [url] } := by
      unfold Server.processUrl
      simp only [hv, Bool.false_eq_true, if_false, hf]
    rw [hp, Server.linkFold_confirmed, mem_foldl_insertSet]
    right
    rw [List.mem_filter]
    exact ⟨hmem, hclass⟩
  · intro fetchI resolve maxDepth s e rest hq hvis hd hfet
    have hdec : decide (maxDepth < e.depth) = false :=
      decide_eq_false (Nat.not_lt.mpr hd)
    simp [IndexCrawler.crawlStep, hq, hvis, hdec, hfet]
    split <;> rfl

/-- C7 (witness): the containment applied to a concrete navigation error on a
domain's base URL — the url is recorded as failed and the state sealed. -/
theorem c7_per_url_errors_contained_witness :
    Server.processUrl (fun _ => none) (fun _ => none)
        (fun _ => Server.PageResult.err) "amazon.com" "https://www.amazon.com"
        { confirmed := [], failed := [], visited := [] } =
      { confirmed := [], failed := ["https://www.amazon.com"],
        visited := ["https://www.amazon.com"] } := by
  have h := (c7_per_url_errors_contained (fun _ => none) (fun _ => none)
    (fun _ => Server.PageResult.err) "amazon.com" "https://www.amazon.com"
    { confirmed := [], failed := [], visited := [] } (by decide)).1 rfl
  rw [h]
  decide

/-- C8 (confirmed): the lazy-load scroll loop of `handleInfiniteScroll`
(src/server.js lines 195-214) performs at most 3 scroll actions (the
`maxScrolls` ceiling); it stops at the first scroll after which the document
scroll height equals the previous reading — in particular when the height is
already stable after the first scroll, exactly one scroll is performed; and
in general, if the first `k` scrolls each grew the height and the `k+1`-th
did not (for `k` below the ceiling), exactly `k+1` scrolls are performed. -/
theorem c8_scroll_bounded_and_stops_on_stable :
    ∀ (heights : Nat → Nat),
      Scroll.scrollCount heights ≤ 3 ∧
      (heights 1 = heights 0 → Scroll.scrollCount heights = 1) ∧
      (∀ k, k < 3 → (∀ j, j < k → heights (j + 1) ≠ heights j) →
        heights (k + 1) = heights k → Scroll.scrollCount heights = k + 1) := by
  intro heights
  refine ⟨Scroll.scrollGo_le heights 3 (heights 0) 0, ?_, ?_⟩
  · intro h
    simp [Scroll.scrollCount, Scroll.scrollGo, h]
  · intro k hk hne heq
    interval_cases k
    · simp [Scroll.scrollCount, Scroll.scrollGo, heq]
    · have h01 := hne 0 (by omega)
      simp [Scroll.scrollCount, Scroll.scrollGo, beq_iff_eq, h01, heq]
    · have h01 := hne 0 (by omega)
      have h12 := hne 1 (by omega)
      simp [Scroll.scrollCount, Scroll.scrollGo, beq_iff_eq, h01, h12, heq]

/-- C8 (witness): the early-stop bound applied to a page whose scroll height
is constant — one scroll happens, within the ceiling of three. -/
theorem c8_scroll_bounded_witness :
    Scroll.scrollCount (fun _ => 100) = 1 ∧
      Scroll.scrollCount (fun _ => 100) ≤ 3 :=
  ⟨(c8_scroll_bounded_and_stops_on_stable (fun _ => 100)).2.1 rfl,
    (c8_scroll_bounded_and_stops_on_stable (fun _ => 100)).1⟩

/-- C9 (counterexample): the claim states the normalizer rejects hrefs with a
non-HTTP(S) scheme and strips the URL fragment.  The normalization actually
performed is `new URL(href, domain).toString()` (src/index.js line 72), which
passes a `mailto:` href through instead of rejecting it, and keeps the
fragment of a resolved href instead of stripping it. -/
theorem c9_fragment_kept_and_mailto_accepted :
    UrlModel.urlResolve "mailto:someone@flipkart.com"
        "https://www.flipkart.com" = some "mailto:someone@flipkart.com" ∧
    UrlModel.urlResolve "/a/b#sec" "https://www.flipkart.com" =
        some "https://www.flipkart.com/a/b#sec" ∧
    containsSubstr "https://www.flipkart.com/a/b#sec" "#" = true := by
  refine ⟨by decide, by decide, by decide⟩

/-- C9 (amended): the normalizer yields a canonical absolute URL with `.` and
`..` path segments resolved (every http(s) resolution has a dot-free path)
and is stable — it is a pure function of the href and base; but it keeps the
URL fragment, accepts non-HTTP(S) schemes, and an unparseable href throws
(aborting the page's link loop) rather than signalling a per-href rejection. -/
theorem c9_dot_segments_resolved :
    ∀ (href base : String) (u : UrlModel.HttpUrl),
      UrlModel.urlResolveR href base = some (UrlModel.Resolved.httpUrl u) →
      "." ∉ u.path ∧ ".." ∉ u.path := by
  intro href base u h
  unfold UrlModel.urlResolveR at h
  split at h
  · split at h
    · split at h
      · rcases Option.map_eq_some'.mp h with ⟨v, hv, hvu⟩
        cases hvu
        exact UrlModel.parseRest_no_dots _ _ _ hv
      · exact absurd h (by simp)
    · rw [Option.some_inj] at h
      cases h
  · split at h
    · exact absurd h (by simp)
    · rename_i b hb
      rcases Option.map_eq_some'.mp h with ⟨v, hv, hvu⟩
      cases hvu
      exact UrlModel.resolveRelative_no_dots b _ _
        (UrlModel.parseAbs_no_dots _ _ hb) hv

/-- C9 (witness): the dot-segment property applied to a concrete resolution:
`/x/../y` against the flipkart base resolves to the dot-free path `[y]`. -/
theorem c9_dot_segments_resolved_witness :
    "." ∉ (UrlModel.HttpUrl.mk "https" "www.flipkart.com" ["y"] none none).path ∧
      ".." ∉ (UrlModel.HttpUrl.mk "https" "www.flipkart.com" ["y"] none none).path :=
  c9_dot_segments_resolved "/x/../y" "https://www.flipkart.com"
    (UrlModel.HttpUrl.mk "https" "www.flipkart.com" ["y"] none none) (by decide)

/-- C10 (confirmed): `EcommerceCrawler.isSameDomain` (src/server.js lines
274-282) is total — it returns a boolean for every input and in particular
returns `false` whenever the hostname cannot be extracted (a `null` hostname
or a throwing parse, both absorbed by the `catch`); and it returns `true`
exactly when the extracted hostname, after stripping one leading `www.`,
equals the target domain or ends with `.` followed by the target domain —
so subdomains are in scope. -/
theorem c10_isSameDomain_total_characterization :
    ∀ (parse : String → Option String) (url domain : String),
      (Server.isSameDomain parse url domain = true ↔
        ∃ h, parse url = some h ∧
          (Server.stripWww h = domain ∨
            strEndsWith (Server.stripWww h) ("." ++ domain) = true)) ∧
      (parse url = none → Server.isSameDomain parse url domain = false) := by
  intro parse url domain
  cases hp : parse url with
  | none => simp [Server.isSameDomain, hp]
  | some h =>
    constructor
    · rw [Server.isSameDomain]
      simp only [hp, Bool.or_eq_true, beq_iff_eq]
      constructor
      · intro hor
        exact ⟨h, rfl, hor⟩
      · rintro ⟨h2, hh2, hor⟩
        rw [Option.some_inj] at hh2
        exact hh2 ▸ hor
    · intro hn
      exact Option.noConfusion hn

/-- C10 (witness): the characterization applied to a concrete parse — a
`sub.flipkart.com` hostname (after `www.` stripping) counts as in scope for
`flipkart.com`, and an unparseable URL yields `false`. -/
theorem c10_isSameDomain_total_witness :
    Server.isSameDomain (fun _ => some "www.sub.flipkart.com")
        "https://www.sub.flipkart.com/p/1" "flipkart.com" = true ∧
    Server.isSameDomain (fun _ => none) "not a url" "flipkart.com" = false :=
  ⟨(c10_isSameDomain_total_characterization (fun _ => some "www.sub.flipkart.com")
      "https://www.sub.flipkart.com/p/1" "flipkart.com").1.mpr
      ⟨"www.sub.flipkart.com", rfl, Or.inr (by decide)⟩,
    (c10_isSameDomain_total_characterization (fun _ => none) "not a url"
      "flipkart.com").2 rfl⟩
